import Mathlib

/-!
Verification development for the runtime core of the `backrooms-kids` maze game
(`src/runtime.js`).  The JavaScript source is shallowly embedded:

* The mulberry32 PRNG (`rng`, lines 15-25) works on a single 32-bit state; all
  JS bitwise operations (`imul`, `^`, `>>>`, `|`) act on 32-bit patterns, so the
  state and the scrambled output are modelled as naturals below `2^32`
  (`mixState`, `mixOut`).  A call `R()` first advances the state and then
  scrambles it; the float output is `x / 2^32` for the 32-bit output `x`, so
  `Math.floor(R() * n)` is exactly `x * n / 2^32` in natural division (exact in
  IEEE doubles for the small factors the code uses).
* The maze grid (`makeMaze`, lines 27-78) is a `h`-row, `w`-column array with
  `1` = wall and `0` = floor, modelled as dimensions plus a cell function
  (`MGrid`); every access the source performs is in bounds.
* Continuous quantities (positions, angles, distances, times) are IEEE doubles
  in the source and are modelled with exact rationals; `Math.hypot` comparisons
  against a constant are modelled by comparing squared distances, which is
  equivalent over the reals.
-/

/-- The modulus `2^32` of all 32-bit JS integer arithmetic. -/
def W32 : Nat := 4294967296

/-- One mulberry32 state advance: `t += 0x6D2B79F5` in 32-bit arithmetic
(`runtime.js` line 19). -/
def mixState (t : Nat) : Nat := (t + 0x6D2B79F5) % W32

/-- The mulberry32 output scrambler (`runtime.js` lines 20-23): given the
current state pattern, produce the 32-bit output pattern whose value divided by
`2^32` is the float returned by `R()`.  `Math.imul` is multiplication mod
`2^32` on patterns, `>>>` is a logical shift of the pattern. -/
def mixOut (t : Nat) : Nat :=
  let x2 := (Nat.xor t (t >>> 15) * (t ||| 1)) % W32
  let x3 := Nat.xor x2 ((x2 + (Nat.xor x2 (x2 >>> 7) * (x2 ||| 61)) % W32) % W32)
  Nat.xor x3 (x3 >>> 14)

lemma w32_pos : 0 < W32 := by norm_num [W32]

lemma xor_lt_w32 {a b : Nat} (ha : a < W32) (hb : b < W32) : Nat.xor a b < W32 := by
  have hW : W32 = 2 ^ 32 := by norm_num [W32]
  rw [hW] at ha hb ⊢
  exact Nat.xor_lt_two_pow ha hb

lemma shiftRight_le_self (a k : Nat) : a >>> k ≤ a := by
  rw [Nat.shiftRight_eq_div_pow]
  exact Nat.div_le_self _ _

lemma mixOut_lt (t : Nat) : mixOut t < W32 := by
  simp only [mixOut]
  apply xor_lt_w32
  · exact xor_lt_w32 (Nat.mod_lt _ w32_pos) (Nat.mod_lt _ w32_pos)
  · exact lt_of_le_of_lt (shiftRight_le_self _ _)
      (xor_lt_w32 (Nat.mod_lt _ w32_pos) (Nat.mod_lt _ w32_pos))

/-- Index draw: `Math.floor(R() * len)` for a fresh 32-bit output `x` is `x * len / 2^32`,
which is a valid index whenever `len > 0`. -/
lemma idx_lt (x len : Nat) (hx : x < W32) (hl : 0 < len) : x * len / W32 < len := by
  apply Nat.div_lt_of_lt_mul
  exact Nat.mul_lt_mul_of_lt_of_le hx le_rfl hl

lemma getD_mem {α : Type} (l : List α) (i : Nat) (d : α) (h : i < l.length) :
    l.getD i d ∈ l := by
  rw [List.getD_eq_getElem l d h]
  exact List.getElem_mem _

/-- The maze grid: `h` rows of `w` cells, `cell x y` being the entry
`grid[y][x]` of the JS 2D array (`1` = wall, `0` = floor).  Every grid access
performed by the source is in bounds, so a total cell function is a faithful
model of the JS array. -/
structure MGrid where
  w : Nat
  h : Nat
  cell : Nat → Nat → Nat

/-- Cell write `grid[y][x] = v` (`runtime.js` e.g. lines 35, 61-62, 73). -/
def gset (g : MGrid) (x y v : Nat) : MGrid :=
  { g with cell := fun a b => if a = x ∧ b = y then v else g.cell a b }

/-- The all-wall starting grid of `makeMaze` (`runtime.js` line 30). -/
def mkGrid (w h : Nat) : MGrid := ⟨w, h, fun _ _ => 1⟩

lemma gset_w (g : MGrid) (x y v : Nat) : (gset g x y v).w = g.w := rfl
lemma gset_h (g : MGrid) (x y v : Nat) : (gset g x y v).h = g.h := rfl

lemma gset_cell_ne (g : MGrid) (x y v a b : Nat) (h : ¬(a = x ∧ b = y)) :
    (gset g x y v).cell a b = g.cell a b := by
  simp only [gset, if_neg h]

lemma gset_cell_eq (g : MGrid) (x y v : Nat) : (gset g x y v).cell x y = v := by
  simp [gset]

/-- Number of wall cells inside the grid rectangle; used only as a termination
measure for the carve loop. -/
def wallCount (g : MGrid) : Nat :=
  ((Finset.range g.w ×ˢ Finset.range g.h).filter (fun p => g.cell p.1 p.2 = 1)).card

lemma wallCount_gset_le (g : MGrid) (x y : Nat) : wallCount (gset g x y 0) ≤ wallCount g := by
  apply Finset.card_le_card
  intro p hp
  simp only [wallCount, Finset.mem_filter, gset_w, gset_h] at hp ⊢
  refine ⟨hp.1, ?_⟩
  by_cases hpe : p.1 = x ∧ p.2 = y
  · exfalso
    have hz := hp.2
    rw [show (gset g x y 0).cell p.1 p.2 = 0 by
      rw [hpe.1, hpe.2]; exact gset_cell_eq g x y 0] at hz
    exact absurd hz (by norm_num)
  · rw [gset_cell_ne g x y 0 p.1 p.2 hpe] at hp
    exact hp.2

lemma wallCount_gset_lt (g : MGrid) (x y : Nat) (hx : x < g.w) (hy : y < g.h)
    (hc : g.cell x y = 1) : wallCount (gset g x y 0) < wallCount g := by
  apply Finset.card_lt_card
  rw [Finset.ssubset_iff_of_subset]
  · refine ⟨(x, y), ?_, ?_⟩
    · simp [wallCount, Finset.mem_filter, hx, hy, hc]
    · simp [wallCount, Finset.mem_filter, gset_cell_eq]
  · intro p hp
    simp only [wallCount, Finset.mem_filter, gset_w, gset_h] at hp ⊢
    refine ⟨hp.1, ?_⟩
    by_cases hpe : p.1 = x ∧ p.2 = y
    · exfalso
      have hz := hp.2
      rw [show (gset g x y 0).cell p.1 p.2 = 0 by
        rw [hpe.1, hpe.2]; exact gset_cell_eq g x y 0] at hz
      exact absurd hz (by norm_num)
    · rw [gset_cell_ne g x y 0 p.1 p.2 hpe] at hp
      exact hp.2

/-- A carve candidate (`runtime.js` line 52): the neighbour anchor `(nx, ny)`
two cells away and the connecting wall cell `(wx, wy)` between it and the
current cell. -/
structure Cand where
  nx : Nat
  ny : Nat
  wx : Nat
  wy : Nat

/-- The four 2-step carve directions (`runtime.js` lines 38-43). -/
def mazeDirs : List (Int × Int) := [(0, -2), (0, 2), (-2, 0), (2, 0)]

/-- The per-direction candidate test of the carve loop (`runtime.js`
lines 48-53): reject out-of-interior neighbours, accept neighbours that are
still solid, recording the connecting wall cell `cur + d/2`. -/
def candCheck (g : MGrid) (cx cy : Nat) (d : Int × Int) : Option Cand :=
  let nx : Int := (cx : Int) + d.1
  let ny : Int := (cy : Int) + d.2
  if nx ≤ 0 ∨ ny ≤ 0 ∨ (g.w : Int) - 1 ≤ nx ∨ (g.h : Int) - 1 ≤ ny then none
  else if g.cell nx.toNat ny.toNat = 1 then
    some ⟨nx.toNat, ny.toNat, ((cx : Int) + d.1 / 2).toNat, ((cy : Int) + d.2 / 2).toNat⟩
  else none

/-- The candidate list collected for the stack top (`runtime.js` lines 47-53). -/
def candidatesOf (g : MGrid) (cx cy : Nat) : List Cand :=
  mazeDirs.filterMap (candCheck g cx cy)

/-- 4-neighbour adjacency of grid cells. -/
def Adj (p q : Nat × Nat) : Prop :=
  (p.1 = q.1 ∧ (p.2 = q.2 + 1 ∨ q.2 = p.2 + 1)) ∨
  (p.2 = q.2 ∧ (p.1 = q.1 + 1 ∨ q.1 = p.1 + 1))

/-- Everything the carve step needs to know about a produced candidate. -/
def CandOK (g : MGrid) (cx cy : Nat) (c : Cand) : Prop :=
  1 ≤ c.nx ∧ c.nx + 1 < g.w ∧ 1 ≤ c.ny ∧ c.ny + 1 < g.h ∧
  c.wx < g.w ∧ c.wy < g.h ∧
  g.cell c.nx c.ny = 1 ∧
  Adj (cx, cy) (c.wx, c.wy) ∧ Adj (c.wx, c.wy) (c.nx, c.ny) ∧
  ¬(c.nx = c.wx ∧ c.ny = c.wy)

lemma candidatesOf_ok (g : MGrid) (cx cy : Nat) (c : Cand)
    (hc : c ∈ candidatesOf g cx cy) : CandOK g cx cy c := by
  simp only [candidatesOf, List.mem_filterMap] at hc
  obtain ⟨d, hd, hcheck⟩ := hc
  simp only [mazeDirs, List.mem_cons, List.not_mem_nil, or_false] at hd
  rcases hd with hd | hd | hd | hd <;> subst hd <;>
  · simp only [candCheck] at hcheck
    split at hcheck
    · exact absurd hcheck (by simp)
    · split at hcheck
      · rename_i hbounds hcell
        push_neg at hbounds
        obtain ⟨hb1, hb2, hb3, hb4⟩ := hbounds
        injection hcheck with hcv
        subst hcv
        unfold CandOK Adj
        dsimp only
        refine ⟨?_, ?_, ?_, ?_, ?_, ?_, hcell, ?_, ?_, ?_⟩ <;> omega
      · exact absurd hcheck (by simp)

/-- The random candidate pick of the carve loop (`runtime.js` line 60):
`candidates[Math.floor(R() * candidates.length)]` with the fresh PRNG draw
obtained from state `t`. -/
def pickCand (g : MGrid) (cx cy t : Nat) : Cand :=
  (candidatesOf g cx cy).getD
    (mixOut (mixState t) * (candidatesOf g cx cy).length / W32) ⟨0, 0, 0, 0⟩

lemma pickCand_ok (g : MGrid) (cx cy t : Nat)
    (hlen : (candidatesOf g cx cy).length ≠ 0) : CandOK g cx cy (pickCand g cx cy t) := by
  apply candidatesOf_ok
  apply getD_mem
  exact idx_lt _ _ (mixOut_lt _) (Nat.pos_of_ne_zero hlen)

/-- The depth-first carve loop of `makeMaze` (`runtime.js` lines 45-64): while
the stack is nonempty, look at the top cell; with no candidates pop, otherwise
pick a candidate with a fresh PRNG draw, carve the connecting wall cell and the
neighbour, and push the neighbour.  Returns the carved grid and the final PRNG
state. -/
def carveLoop (g : MGrid) (stack : List (Nat × Nat)) (t : Nat) : MGrid × Nat :=
  match stack with
  | [] => (g, t)
  | cur :: rest =>
    if hlen : (candidatesOf g cur.1 cur.2).length = 0 then
      carveLoop g rest t
    else
      carveLoop
        (gset (gset g (pickCand g cur.1 cur.2 t).wx (pickCand g cur.1 cur.2 t).wy 0)
          (pickCand g cur.1 cur.2 t).nx (pickCand g cur.1 cur.2 t).ny 0)
        (((pickCand g cur.1 cur.2 t).nx, (pickCand g cur.1 cur.2 t).ny) :: cur :: rest)
        (mixState t)
termination_by 2 * wallCount g + stack.length
decreasing_by
  · simp only [List.length_cons]
    omega
  · have hok := pickCand_ok g cur.1 cur.2 t hlen
    obtain ⟨h1, h2, h3, h4, h5, h6, h7, h8, h9, h10⟩ := hok
    have hle := wallCount_gset_le g (pickCand g cur.1 cur.2 t).wx (pickCand g cur.1 cur.2 t).wy
    have hcell : (gset g (pickCand g cur.1 cur.2 t).wx (pickCand g cur.1 cur.2 t).wy 0).cell
        (pickCand g cur.1 cur.2 t).nx (pickCand g cur.1 cur.2 t).ny = 1 := by
      rw [gset_cell_ne _ _ _ _ _ _ h10]
      exact h7
    have hlt := wallCount_gset_lt
      (gset g (pickCand g cur.1 cur.2 t).wx (pickCand g cur.1 cur.2 t).wy 0)
      (pickCand g cur.1 cur.2 t).nx (pickCand g cur.1 cur.2 t).ny
      (by rw [gset_w]; omega) (by rw [gset_h]; omega) hcell
    simp only [List.length_cons]
    omega

/-- Reachability between cells of the grid along 4-neighbour steps through
floor cells (the notion of connectivity in claim C1). -/
inductive ReachFloor (g : MGrid) (p : Nat × Nat) : Nat × Nat → Prop where
  | refl (hp : g.cell p.1 p.2 = 0) : ReachFloor g p p
  | tail {q r : Nat × Nat} (hpq : ReachFloor g p q) (hadj : Adj q r)
      (hr : g.cell r.1 r.2 = 0) : ReachFloor g p r

lemma Adj.swap {p q : Nat × Nat} (h : Adj p q) : Adj q p := by
  unfold Adj at *
  omega

lemma ReachFloor.src_floor {g : MGrid} {p q : Nat × Nat} (h : ReachFloor g p q) :
    g.cell p.1 p.2 = 0 := by
  induction h with
  | refl hp => exact hp
  | tail hpq hadj hr ih => exact ih

lemma ReachFloor.dst_floor {g : MGrid} {p q : Nat × Nat} (h : ReachFloor g p q) :
    g.cell q.1 q.2 = 0 := by
  induction h with
  | refl hp => exact hp
  | tail hpq hadj hr ih => exact hr

lemma ReachFloor.trans {g : MGrid} {p q r : Nat × Nat} (h1 : ReachFloor g p q)
    (h2 : ReachFloor g q r) : ReachFloor g p r := by
  induction h2 with
  | refl hp => exact h1
  | tail hab hadj hb ih => exact ReachFloor.tail ih hadj hb

lemma ReachFloor.symm {g : MGrid} {p q : Nat × Nat} (h : ReachFloor g p q) :
    ReachFloor g q p := by
  induction h with
  | refl hp => exact ReachFloor.refl hp
  | @tail q r hpq hadj hr ih =>
    exact ReachFloor.trans
      (ReachFloor.tail (ReachFloor.refl hr) hadj.swap hpq.dst_floor) ih

lemma ReachFloor.mono {g g' : MGrid} {p q : Nat × Nat} (h : ReachFloor g p q)
    (hm : ∀ x y, g.cell x y = 0 → g'.cell x y = 0) : ReachFloor g' p q := by
  induction h with
  | refl hp => exact ReachFloor.refl (hm _ _ hp)
  | @tail q r hpq hadj hr ih => exact ReachFloor.tail ih hadj (hm _ _ hr)

lemma gset0_mono (g : MGrid) (x y : Nat) : ∀ a b, g.cell a b = 0 →
    (gset g x y 0).cell a b = 0 := by
  intro a b h
  by_cases he : a = x ∧ b = y
  · rw [he.1, he.2]
    exact gset_cell_eq g x y 0
  · rw [gset_cell_ne _ _ _ _ _ _ he]
    exact h

/-- Invariant of the carve loop: the start anchor is floor, every stacked cell
is floor, and every floor cell reaches `(1,1)` through floor cells. -/
def GoodState (g : MGrid) (stack : List (Nat × Nat)) : Prop :=
  g.cell 1 1 = 0 ∧ (∀ p ∈ stack, g.cell p.1 p.2 = 0) ∧
  (∀ x y, g.cell x y = 0 → ReachFloor g (x, y) (1, 1))

/-- The connectivity property claim C1 needs of a produced grid: `(1,1)` is
floor and every floor cell reaches it through floor cells. -/
def Conn (g : MGrid) : Prop :=
  g.cell 1 1 = 0 ∧ ∀ x y, g.cell x y = 0 → ReachFloor g (x, y) (1, 1)

lemma goodState_carve (g : MGrid) (cur : Nat × Nat) (rest : List (Nat × Nat)) (c : Cand)
    (hok : CandOK g cur.1 cur.2 c) (hgs : GoodState g (cur :: rest)) :
    GoodState (gset (gset g c.wx c.wy 0) c.nx c.ny 0) ((c.nx, c.ny) :: cur :: rest) := by
  obtain ⟨-, -, -, -, -, -, hcell, hadj1, hadj2, hne⟩ := hok
  obtain ⟨h11, hstack, hconn⟩ := hgs
  set g2 := gset (gset g c.wx c.wy 0) c.nx c.ny 0 with hg2
  have hmono : ∀ a b, g.cell a b = 0 → g2.cell a b = 0 := fun a b h =>
    gset0_mono _ _ _ _ _ (gset0_mono g c.wx c.wy a b h)
  have hw_floor : g2.cell c.wx c.wy = 0 := by
    by_cases he : c.wx = c.nx ∧ c.wy = c.ny
    · rw [hg2, he.1, he.2]
      exact gset_cell_eq _ _ _ _
    · rw [hg2, gset_cell_ne _ _ _ _ _ _ he]
      exact gset_cell_eq _ _ _ _
  have hn_floor : g2.cell c.nx c.ny = 0 := gset_cell_eq _ _ _ _
  have hcur_floor : g.cell cur.1 cur.2 = 0 := hstack cur (List.mem_cons_self _ _)
  have hcur_reach : ReachFloor g2 (cur.1, cur.2) (1, 1) :=
    (hconn cur.1 cur.2 hcur_floor).mono hmono
  have hreach_w : ReachFloor g2 (c.wx, c.wy) (1, 1) :=
    (ReachFloor.tail hcur_reach.symm hadj1 hw_floor).symm
  have hreach_n : ReachFloor g2 (c.nx, c.ny) (1, 1) :=
    (ReachFloor.tail hreach_w.symm hadj2 hn_floor).symm
  refine ⟨hmono _ _ h11, ?_, ?_⟩
  · intro p hp
    rcases List.mem_cons.1 hp with hp1 | hp2
    · rw [hp1]
      exact hn_floor
    · rcases List.mem_cons.1 hp2 with hp3 | hp4
      · rw [hp3]
        exact hmono _ _ hcur_floor
      · exact hmono _ _ (hstack p (List.mem_cons_of_mem _ hp4))
  · intro x y hxy
    by_cases he1 : x = c.nx ∧ y = c.ny
    · rw [he1.1, he1.2]
      exact hreach_n
    · by_cases he2 : x = c.wx ∧ y = c.wy
      · rw [he2.1, he2.2]
        exact hreach_w
      · have hold : g.cell x y = 0 := by
          rw [hg2, gset_cell_ne _ _ _ _ _ _ he1, gset_cell_ne _ _ _ _ _ _ he2] at hxy
          exact hxy
        exact (hconn x y hold).mono hmono

theorem carveLoop_conn : ∀ (g : MGrid) (stack : List (Nat × Nat)) (t : Nat),
    GoodState g stack → Conn (carveLoop g stack t).1 := by
  intro g stack t
  induction g, stack, t using carveLoop.induct with
  | case1 g t =>
    intro hgs
    rw [carveLoop]
    exact ⟨hgs.1, hgs.2.2⟩
  | case2 g t cur rest hlen ih =>
    intro hgs
    rw [carveLoop]
    simp only [dif_pos hlen]
    exact ih ⟨hgs.1, fun p hp => hgs.2.1 p (List.mem_cons_of_mem _ hp), hgs.2.2⟩
  | case3 g t cur rest hlen ih =>
    intro hgs
    rw [carveLoop]
    simp only [dif_neg hlen]
    exact ih (goodState_carve g cur rest _ (pickCand_ok g cur.1 cur.2 t hlen) hgs)

/-- One iteration of the loop-injection pass of `makeMaze` (`runtime.js`
lines 67-75): draw random interior coordinates `x ∈ [1, w-2]`, `y ∈ [1, h-2]`
with two PRNG calls; if the cell is a wall and at least 2 of its 4 orthogonal
neighbours are floor, knock it down.  Returns the updated grid and PRNG
state. -/
def loopPassStep (g : MGrid) (t : Nat) : MGrid × Nat :=
  let t1 := mixState t
  let x := 1 + mixOut t1 * (g.w - 2) / W32
  let t2 := mixState t1
  let y := 1 + mixOut t2 * (g.h - 2) / W32
  if g.cell x y = 1 then
    if 2 ≤ (if g.cell x (y - 1) = 0 then 1 else 0) + (if g.cell x (y + 1) = 0 then 1 else 0) +
        (if g.cell (x - 1) y = 0 then 1 else 0) + (if g.cell (x + 1) y = 0 then 1 else 0) then
      (gset g x y 0, t2)
    else (g, t2)
  else (g, t2)

/-- The loop-injection pass (`runtime.js` lines 67-75), iterated `k` times. -/
def loopPass : MGrid → Nat → Nat → MGrid × Nat
  | g, t, 0 => (g, t)
  | g, t, k + 1 => loopPass (loopPassStep g t).1 (loopPassStep g t).2 k

/-- Number of iterations of `for (let i = 0; i < (w*h)*0.02; i++)` under exact
arithmetic: the number of naturals `i` with `i < w*h/50`, i.e. `⌈w*h/50⌉`. -/
def loopIters (w h : Nat) : Nat := (w * h + 49) / 50

/-- Knocking down a wall with a floor neighbour preserves connectivity to
`(1,1)`: the converted cell attaches to the floor component through that
neighbour, and all old floor paths persist. -/
lemma conn_gset_of_nbr (g : MGrid) (x y : Nat) (hx : 1 ≤ x) (hy : 1 ≤ y)
    (hc : Conn g)
    (hn : 2 ≤ (if g.cell x (y - 1) = 0 then 1 else 0) + (if g.cell x (y + 1) = 0 then 1 else 0) +
      (if g.cell (x - 1) y = 0 then 1 else 0) + (if g.cell (x + 1) y = 0 then 1 else 0)) :
    Conn (gset g x y 0) := by
  have hnbr : ∃ nb : Nat × Nat, g.cell nb.1 nb.2 = 0 ∧ Adj (x, y) nb := by
    by_cases h1 : g.cell x (y - 1) = 0
    · exact ⟨(x, y - 1), h1, Or.inl ⟨rfl, by omega⟩⟩
    · by_cases h2 : g.cell x (y + 1) = 0
      · exact ⟨(x, y + 1), h2, Or.inl ⟨rfl, by omega⟩⟩
      · by_cases h3 : g.cell (x - 1) y = 0
        · exact ⟨(x - 1, y), h3, Or.inr ⟨rfl, by omega⟩⟩
        · by_cases h4 : g.cell (x + 1) y = 0
          · exact ⟨(x + 1, y), h4, Or.inr ⟨rfl, by omega⟩⟩
          · simp only [if_neg h1, if_neg h2, if_neg h3, if_neg h4] at hn
            omega
  obtain ⟨nb, hnbf, hnba⟩ := hnbr
  have hmono := gset0_mono g x y
  have hnew_floor : (gset g x y 0).cell x y = 0 := gset_cell_eq _ _ _ _
  have hreach_new : ReachFloor (gset g x y 0) (x, y) (1, 1) := by
    have hnb_reach : ReachFloor (gset g x y 0) nb (1, 1) :=
      (hc.2 nb.1 nb.2 hnbf).mono hmono
    exact (ReachFloor.tail hnb_reach.symm hnba.swap hnew_floor).symm
  refine ⟨hmono _ _ hc.1, ?_⟩
  intro a b hab
  by_cases he : a = x ∧ b = y
  · rw [he.1, he.2]
    exact hreach_new
  · have hold : g.cell a b = 0 := by
      rw [gset_cell_ne _ _ _ _ _ _ he] at hab
      exact hab
    exact (hc.2 a b hold).mono hmono

lemma conn_loopPassStep (g : MGrid) (t : Nat) (hc : Conn g) :
    Conn (loopPassStep g t).1 := by
  rw [loopPassStep]
  set x := 1 + mixOut (mixState t) * (g.w - 2) / W32 with hxdef
  set y := 1 + mixOut (mixState (mixState t)) * (g.h - 2) / W32 with hydef
  by_cases h1 : g.cell x y = 1
  · rw [if_pos h1]
    by_cases h2 : 2 ≤ (if g.cell x (y - 1) = 0 then 1 else 0) +
        (if g.cell x (y + 1) = 0 then 1 else 0) + (if g.cell (x - 1) y = 0 then 1 else 0) +
        (if g.cell (x + 1) y = 0 then 1 else 0)
    · rw [if_pos h2]
      exact conn_gset_of_nbr g x y (by rw [hxdef]; exact Nat.le_add_right 1 _)
        (by rw [hydef]; exact Nat.le_add_right 1 _) hc h2
    · rw [if_neg h2]
      exact hc
  · rw [if_neg h1]
    exact hc

lemma conn_loopPass (g : MGrid) (t k : Nat) (hc : Conn g) : Conn (loopPass g t k).1 := by
  induction k generalizing g t with
  | zero => exact hc
  | succ k ih => exact ih _ _ (conn_loopPassStep g t hc)

/-- Maze generation `makeMaze(w, h, seed)` (`runtime.js` lines 27-78): seed the PRNG with the
32-bit truncation of the seed, carve from anchor `(1,1)` with the depth-first
loop, run the loop-injection pass, and return the grid together with an echo of
the original seed. -/
def makeMaze (w h seed : Nat) : MGrid × Nat :=
  let g0 := gset (mkGrid w h) 1 1 0
  let r1 := carveLoop g0 [(1, 1)] (seed % W32)
  let r2 := loopPass r1.1 r1.2 (loopIters w h)
  (r2.1, seed)

lemma goodState_init (w h : Nat) : GoodState (gset (mkGrid w h) 1 1 0) [(1, 1)] := by
  refine ⟨gset_cell_eq _ _ _ _, ?_, ?_⟩
  · intro p hp
    rcases List.mem_cons.1 hp with hp1 | hp2
    · rw [hp1]
      exact gset_cell_eq _ _ _ _
    · exact absurd hp2 (List.not_mem_nil _)
  · intro x y hxy
    by_cases he : x = 1 ∧ y = 1
    · rw [he.1, he.2]
      exact ReachFloor.refl (gset_cell_eq _ _ _ _)
    · rw [gset_cell_ne _ _ _ _ _ _ he] at hxy
      exact absurd hxy (by simp [mkGrid])

lemma makeMaze_conn (w h seed : Nat) : Conn (makeMaze w h seed).1 := by
  simp only [makeMaze]
  exact conn_loopPass _ _ _ (carveLoop_conn _ _ _ (goodState_init w h))

/-- C1: for every odd width and height (both at least 5) and every 32-bit
seed, in the grid returned by `makeMaze` every floor cell is reachable from
every other floor cell (hence in particular from the player spawn cell, which
`findRandomFloor` always picks among floor cells) via 4-neighbour steps through
floor cells: the depth-first carve keeps the floor set connected to the anchor
`(1,1)`, and each loop-injection conversion (which requires at least 2 floor
neighbours) attaches the new floor cell to the component.  The proof
establishes the connectivity invariant at every step, so it holds for all
dimensions; the parity and size hypotheses mirror the claim. -/
theorem makeMaze_connected (w h seed : Nat) (hwodd : Odd w) (hhodd : Odd h)
    (hw : 5 ≤ w) (hh : 5 ≤ h) :
    ∀ a b : Nat × Nat, (makeMaze w h seed).1.cell a.1 a.2 = 0 →
      (makeMaze w h seed).1.cell b.1 b.2 = 0 →
      ReachFloor (makeMaze w h seed).1 a b := by
  intro a b ha hb
  have hc := makeMaze_conn w h seed
  exact (hc.2 a.1 a.2 ha).trans (hc.2 b.1 b.2 hb).symm

theorem makeMaze_connected_witness :
    Odd 5 ∧ 5 ≤ 5 ∧
      (∀ a b : Nat × Nat, (makeMaze 5 5 0).1.cell a.1 a.2 = 0 →
        (makeMaze 5 5 0).1.cell b.1 b.2 = 0 → ReachFloor (makeMaze 5 5 0).1 a b) :=
  ⟨⟨2, by norm_num⟩, by norm_num,
    makeMaze_connected 5 5 0 ⟨2, by norm_num⟩ ⟨2, by norm_num⟩ (by norm_num) (by norm_num)⟩

/-- C2: maze generation is a deterministic function of the width, height and
seed.  The embedding threads the single 32-bit PRNG state explicitly (the JS
closure `rng(seed)` starts from `seed >>> 0` and mutates only that state), so
two runs of `makeMaze(W, H, S)` produce identical grids cell for cell, and the
result echoes the seed that was passed in. -/
theorem makeMaze_deterministic (w h seed : Nat) :
    makeMaze w h seed = makeMaze w h seed ∧
      (∀ x y, (makeMaze w h seed).1.cell x y = (makeMaze w h seed).1.cell x y) ∧
      (makeMaze w h seed).2 = seed :=
  ⟨rfl, fun _ _ => rfl, rfl⟩

/-- Rejection sampler `findRandomFloor(grid, R)` (`runtime.js` lines 80-89): up to 10000 tries,
draw interior coordinates `x ∈ [1, w-2]`, `y ∈ [1, h-2]` with two PRNG calls
and return the first floor cell hit; after exhausting the tries fall back to
the fixed default cell `(1,1)`.  The retry counter is modelled as descending
fuel; the final PRNG state is returned alongside the cell. -/
def findRandomFloorAux (g : MGrid) : Nat → Nat → (Nat × Nat) × Nat
  | 0, t => ((1, 1), t)
  | tries + 1, t =>
    let t1 := mixState t
    let x := 1 + mixOut t1 * (g.w - 2) / W32
    let t2 := mixState t1
    let y := 1 + mixOut t2 * (g.h - 2) / W32
    if g.cell x y = 0 then ((x, y), t2) else findRandomFloorAux g tries t2

/-- The sampler `findRandomFloor` with its full retry budget of 10000. -/
def findRandomFloor (g : MGrid) (t : Nat) : (Nat × Nat) × Nat :=
  findRandomFloorAux g 10000 t

/-- Squared Euclidean distance.  The source compares `Math.hypot` distances
against constants (`dist(...) < 8` etc., `runtime.js` lines 91-93, 165, 173,
186); comparing squares against the squared constant is equivalent. -/
def distSq (a b : ℚ × ℚ) : ℚ := (a.1 - b.1) ^ 2 + (a.2 - b.2) ^ 2

/-- Centre of a grid cell, i.e. the cell coordinates shifted by 0.5 on each axis. -/
def cellCenter (c : Nat × Nat) : ℚ × ℚ := ((c.1 : ℚ) + 1 / 2, (c.2 : ℚ) + 1 / 2)

/-- The key-placement loop of `startNew` (`runtime.js` lines 163-168):
`while (keyPos.length < 3)` draw a floor cell, skip it if its centre is within
distance 8 of the player or if it repeats an already placed key, else append
it.  The source loop is unbounded; the model gives it descending fuel and
returns `none` when the fuel is exhausted before 3 keys are placed. -/
def keysLoopFuel (g : MGrid) (p : ℚ × ℚ) :
    List (Nat × Nat) → Nat → Nat → Option (List (Nat × Nat) × Nat)
  | acc, t, 0 => if 3 ≤ acc.length then some (acc, t) else none
  | acc, t, fuel + 1 =>
    if 3 ≤ acc.length then some (acc, t)
    else
      let r := findRandomFloor g t
      if distSq (cellCenter r.1) p < 64 then keysLoopFuel g p acc r.2 fuel
      else if acc.any (fun o => o.1 = r.1.1 && o.2 = r.1.2) then keysLoopFuel g p acc r.2 fuel
      else keysLoopFuel g p (acc ++ [r.1]) r.2 fuel

/-- The exit-placement loop of `startNew` (`runtime.js` lines 171-177):
`while (true)` draw a floor cell, retry while its centre is within distance 10
of the player or coincides with a key, else accept.  The source loop is
unbounded; the model gives it descending fuel. -/
def exitLoopFuel (g : MGrid) (p : ℚ × ℚ) (ks : List (Nat × Nat)) :
    Nat → Nat → Option ((Nat × Nat) × Nat)
  | _, 0 => none
  | t, fuel + 1 =>
    let r := findRandomFloor g t
    if distSq (cellCenter r.1) p < 100 then exitLoopFuel g p ks r.2 fuel
    else if ks.any (fun o => o.1 = r.1.1 && o.2 = r.1.2) then exitLoopFuel g p ks r.2 fuel
    else some (r.1, r.2)

/-- The enemy-placement loop of `startNew` (`runtime.js` lines 181-190): up to
8000 tries draw a floor cell and accept it if its centre is between distance 6
and 10 from the player; if the budget runs out fall back to an unconstrained
`findRandomFloor` call. -/
def enemyLoopAux (g : MGrid) (p : ℚ × ℚ) : Nat → Nat → (Nat × Nat) × Nat
  | 0, t => findRandomFloor g t
  | tries + 1, t =>
    let r := findRandomFloor g t
    let d2 := distSq (cellCenter r.1) p
    if d2 < 36 ∨ 100 < d2 then enemyLoopAux g p tries r.2
    else r

/-- The outcome of the placement phase of `startNew`. -/
structure Placement where
  playerPos : ℚ × ℚ
  keyCells : List (Nat × Nat)
  exitCell : Nat × Nat
  enemyPos : ℚ × ℚ

/-- The entity-placement phase of `startNew` (`runtime.js` lines 154-196):
place the player on a random floor cell (the subsequent `player.a = R()*2π`
draw advances the PRNG state once, modelled by `mixState`), then the three
keys, then the exit, then the enemy.  The trailing `enemy.a = R()*2π` draw
affects no placed position and is not modelled.  `fuelK`/`fuelE` bound the two
source-unbounded loops; `none` means the fuel ran out. -/
def startNewPlace (g : MGrid) (t0 fuelK fuelE : Nat) : Option Placement :=
  let rp := findRandomFloor g t0
  let pPos := cellCenter rp.1
  let t2 := mixState rp.2
  match keysLoopFuel g pPos [] t2 fuelK with
  | none => none
  | some (ks, t3) =>
    match exitLoopFuel g pPos ks t3 fuelE with
    | none => none
    | some (e, t4) =>
      let re := enemyLoopAux g pPos 8000 t4
      some ⟨pPos, ks, e, cellCenter re.1⟩

/-- The distance/distinctness conditions claim C5 states of a completed
placement (vacuous when the placement fuel ran out). -/
def PlacementOK : Option Placement → Prop
  | none => True
  | some pl =>
    pl.keyCells.length = 3 ∧
    (∀ k ∈ pl.keyCells, 64 ≤ distSq (cellCenter k) pl.playerPos) ∧
    pl.keyCells.Pairwise (· ≠ ·) ∧
    100 ≤ distSq (cellCenter pl.exitCell) pl.playerPos ∧
    pl.exitCell ∉ pl.keyCells

lemma keysLoopFuel_ok (g : MGrid) (p : ℚ × ℚ) : ∀ (fuel : Nat) (acc : List (Nat × Nat))
    (t : Nat) (ks : List (Nat × Nat)) (t' : Nat),
    acc.length ≤ 3 →
    (∀ k ∈ acc, 64 ≤ distSq (cellCenter k) p) →
    acc.Pairwise (· ≠ ·) →
    keysLoopFuel g p acc t fuel = some (ks, t') →
    ks.length = 3 ∧ (∀ k ∈ ks, 64 ≤ distSq (cellCenter k) p) ∧ ks.Pairwise (· ≠ ·) := by
  intro fuel
  induction fuel with
  | zero =>
    intro acc t ks t' hlen hfar hpw heq
    simp only [keysLoopFuel] at heq
    split at heq
    · injection heq with hv
      injection hv with hv1 hv2
      subst hv1
      exact ⟨by omega, hfar, hpw⟩
    · exact absurd heq (by simp)
  | succ fuel ih =>
    intro acc t ks t' hlen hfar hpw heq
    simp only [keysLoopFuel] at heq
    by_cases h3 : 3 ≤ acc.length
    · rw [if_pos h3] at heq
      injection heq with hv
      injection hv with hv1 hv2
      subst hv1
      exact ⟨by omega, hfar, hpw⟩
    · rw [if_neg h3] at heq
      split at heq
      · exact ih acc _ ks t' hlen hfar hpw heq
      · split at heq
        · exact ih acc _ ks t' hlen hfar hpw heq
        · rename_i hdist hany
          apply ih _ _ ks t' _ _ _ heq
          · simp only [List.length_append, List.length_singleton]
            omega
          · intro k hk
            rcases List.mem_append.1 hk with hk1 | hk2
            · exact hfar k hk1
            · rw [List.mem_singleton.1 hk2]
              exact le_of_not_lt hdist
          · rw [List.pairwise_append]
            refine ⟨hpw, List.pairwise_singleton _ _, ?_⟩
            intro a ha b hb
            rw [List.mem_singleton.1 hb]
            intro hab
            apply hany
            rw [List.any_eq_true]
            refine ⟨a, ha, ?_⟩
            rw [hab]
            simp


lemma exitLoopFuel_ok (g : MGrid) (p : ℚ × ℚ) (ks : List (Nat × Nat)) :
    ∀ (fuel t : Nat) (e : Nat × Nat) (t' : Nat),
    exitLoopFuel g p ks t fuel = some (e, t') →
    100 ≤ distSq (cellCenter e) p ∧ e ∉ ks := by
  intro fuel
  induction fuel with
  | zero =>
    intro t e t' heq
    exact absurd heq (by simp [exitLoopFuel])
  | succ fuel ih =>
    intro t e t' heq
    simp only [exitLoopFuel] at heq
    split at heq
    · exact ih _ e t' heq
    · split at heq
      · exact ih _ e t' heq
      · rename_i hdist hany
        injection heq with hv
        injection hv with hv1 hv2
        subst hv1
        refine ⟨le_of_not_lt hdist, ?_⟩
        intro hmem
        apply hany
        rw [List.any_eq_true]
        exact ⟨_, hmem, by simp⟩

/-- C5: whenever the placement phase of `startNew` completes, the player spawn
centre is at (squared) distance at least `8^2` from every key centre, at least
`10^2` from the exit centre, the 3 placed keys occupy pairwise distinct cells,
and the exit cell coincides with no key cell.  Stated unconditionally of the
`Option`-valued placement: a `none` result (fuel exhausted) satisfies the
property vacuously. -/
theorem startNewPlace_distances (g : MGrid) (t0 fuelK fuelE : Nat) :
    PlacementOK (startNewPlace g t0 fuelK fuelE) := by
  rw [startNewPlace]
  cases hks : keysLoopFuel g (cellCenter (findRandomFloor g t0).1) []
      (mixState (findRandomFloor g t0).2) fuelK with
  | none => trivial
  | some v =>
    obtain ⟨ks, t3⟩ := v
    dsimp only
    cases hex : exitLoopFuel g (cellCenter (findRandomFloor g t0).1) ks t3 fuelE with
    | none => trivial
    | some ev =>
      obtain ⟨e, t4⟩ := ev
      have h1 := keysLoopFuel_ok g (cellCenter (findRandomFloor g t0).1) fuelK [] _ ks t3
        (by simp) (by simp) (by simp) hks
      have h2 := exitLoopFuel_ok g (cellCenter (findRandomFloor g t0).1) ks fuelE t3 e t4 hex
      simp only [PlacementOK]
      exact ⟨h1.1, h1.2.1, h1.2.2, h2.1, h2.2⟩

/-- A pathological 5×5 grid whose only floor cell is `(1,1)`: every
`findRandomFloor` draw lands on `(1,1)` or falls back to `(1,1)`. -/
def oneFloorGrid : MGrid := ⟨5, 5, fun x y => if x = 1 ∧ y = 1 then 0 else 1⟩

/-- A 5×5 grid with no floor cell at all: `findRandomFloor` always exhausts its
10000 tries and returns the fallback cell `(1,1)`. -/
def allWallGrid : MGrid := ⟨5, 5, fun _ _ => 1⟩

lemma findRandomFloorAux_oneFloor : ∀ (tries t : Nat),
    (findRandomFloorAux oneFloorGrid tries t).1 = (1, 1) := by
  intro tries
  induction tries with
  | zero => intro t; rfl
  | succ n ih =>
    intro t
    simp only [findRandomFloorAux]
    by_cases hcell : oneFloorGrid.cell (1 + mixOut (mixState t) * (oneFloorGrid.w - 2) / W32)
        (1 + mixOut (mixState (mixState t)) * (oneFloorGrid.h - 2) / W32) = 0
    · rw [if_pos hcell]
      have hc2 : (if 1 + mixOut (mixState t) * (oneFloorGrid.w - 2) / W32 = 1 ∧
          1 + mixOut (mixState (mixState t)) * (oneFloorGrid.h - 2) / W32 = 1 then (0 : Nat)
          else 1) = 0 := hcell
      by_cases he : 1 + mixOut (mixState t) * (oneFloorGrid.w - 2) / W32 = 1 ∧
          1 + mixOut (mixState (mixState t)) * (oneFloorGrid.h - 2) / W32 = 1
      · simp [he.1, he.2]
      · rw [if_neg he] at hc2
        exact absurd hc2 (by norm_num)
    · rw [if_neg hcell]
      exact ih _

lemma findRandomFloorAux_allWall : ∀ (tries t : Nat),
    (findRandomFloorAux allWallGrid tries t).1 = (1, 1) := by
  intro tries
  induction tries with
  | zero => intro t; rfl
  | succ n ih =>
    intro t
    simp only [findRandomFloorAux, allWallGrid]
    norm_num
    exact ih _

lemma keysLoopFuel_oneFloor_none : ∀ (fuel t : Nat),
    keysLoopFuel oneFloorGrid (3 / 2, 3 / 2) [] t fuel = none := by
  intro fuel
  induction fuel with
  | zero => intro t; simp [keysLoopFuel]
  | succ fuel ih =>
    intro t
    simp only [keysLoopFuel]
    rw [if_neg (by norm_num)]
    have h1 : (findRandomFloor oneFloorGrid t).1 = (1, 1) := findRandomFloorAux_oneFloor 10000 t
    rw [h1]
    rw [if_pos (by norm_num [distSq, cellCenter])]
    exact ih _

/-- C4 counterexample: the claim that every placement loop performs a bounded
number of attempts and terminates on every input grid fails: on the
pathological grid whose only floor cell is `(1,1)` and with the player spawned
on that cell (centre `(1.5, 1.5)`), the key-placement `while` loop never
completes, no matter how many iterations it is allowed — every draw yields the
in-range cell `(1,1)` and is rejected by the distance-8 check. -/
theorem keysLoop_unbounded_counterexample :
    ¬ ∃ fuel : Nat, (keysLoopFuel oneFloorGrid (3 / 2, 3 / 2) [] 0 fuel).isSome = true := by
  rintro ⟨fuel, hf⟩
  rw [keysLoopFuel_oneFloor_none fuel 0] at hf
  exact absurd hf (by simp)

lemma enemyLoopAux_allWall : ∀ (tries t : Nat),
    (enemyLoopAux allWallGrid (3 / 2, 3 / 2) tries t).1 = (1, 1) := by
  intro tries
  induction tries with
  | zero =>
    intro t
    exact findRandomFloorAux_allWall 10000 t
  | succ n ih =>
    intro t
    simp only [enemyLoopAux]
    have h1 : (findRandomFloor allWallGrid t).1 = (1, 1) := findRandomFloorAux_allWall 10000 t
    rw [h1]
    rw [if_pos (by norm_num [distSq, cellCenter])]
    exact ih _

/-- C4 amended: only `findRandomFloor` (10000 tries, fallback `(1,1)`) and the
enemy-placement loop (8000 tries, falling back to an unconstrained
`findRandomFloor`) are bounded; the key and exit placement loops of `startNew`
are unbounded `while` loops and need not terminate on pathological grids.
Conjunct 1: on a floorless grid `findRandomFloor` returns the fallback cell
`(1,1)` from every PRNG state.  Conjunct 2: the enemy loop exhausts its 8000
tries on that grid (every draw is rejected by the 6..10 distance band) and
falls back to `(1,1)`.  Conjunct 3: the key loop never completes on the
one-floor-cell grid, for every PRNG state and every iteration allowance. -/
theorem placement_retry_amended :
    (∀ t, (findRandomFloor allWallGrid t).1 = (1, 1)) ∧
    (∀ t, (enemyLoopAux allWallGrid (3 / 2, 3 / 2) 8000 t).1 = (1, 1)) ∧
    (∀ t fuel, keysLoopFuel oneFloorGrid (3 / 2, 3 / 2) [] t fuel = none) :=
  ⟨fun t => findRandomFloorAux_allWall 10000 t,
    fun t => enemyLoopAux_allWall 8000 t,
    fun t fuel => keysLoopFuel_oneFloor_none fuel t⟩

/-- Wall query `Game.isWall(x, y)` (`runtime.js` lines 232-238): floor the coordinates,
treat any cell outside the grid as wall, otherwise test the stored cell for
`1`.  The row-count test (`yi >= grid.length`) comes first, exactly as in the
source, so for the pre-generation empty grid (`h = 0`) the width is never
consulted. -/
def isWall (g : MGrid) (x y : ℚ) : Bool :=
  let xi := ⌊x⌋
  let yi := ⌊y⌋
  if yi < 0 ∨ (g.h : Int) ≤ yi then true
  else if xi < 0 ∨ (g.w : Int) ≤ xi then true
  else g.cell xi.toNat yi.toNat == 1

/-- The `this.grid = []` state a `Game` starts in before `startNew` runs
(`runtime.js` line 112): zero rows, hence every query is out of bounds on the
very first test and `grid[0]` is never read. -/
def emptyGrid : MGrid := ⟨0, 0, fun _ _ => 1⟩

/-- Stand test `Game.canStand(nx, ny)` (`runtime.js` lines 240-243): the four probe
points at collision radius `r = 0.14` (exactly `7/50` in the model) must all
be non-wall. -/
def canStand (g : MGrid) (nx ny : ℚ) : Bool :=
  !isWall g (nx + 7 / 50) ny && !isWall g (nx - 7 / 50) ny &&
    !isWall g nx (ny + 7 / 50) && !isWall g nx (ny - 7 / 50)

/-- Movement `Game.tryMove(actor, nx, ny)` (`runtime.js` lines 245-249): axis-separated
resolution — accept the X motion alone if the actor can stand there, then
accept the Y motion from the (possibly updated) X position. -/
def tryMove (g : MGrid) (pos : ℚ × ℚ) (nx ny : ℚ) : ℚ × ℚ :=
  let x1 := if canStand g nx pos.2 then nx else pos.1
  let y1 := if canStand g x1 ny then ny else pos.2
  (x1, y1)

/-- C3: if an actor's current position passes the 4-probe `canStand` check,
then after `tryMove` towards any target the resulting position still passes
`canStand` — each axis update is only applied after its own `canStand` test,
so no probe point of the final position can land on a wall cell. -/
theorem tryMove_preserves_canStand (g : MGrid) (pos : ℚ × ℚ) (nx ny : ℚ)
    (h : canStand g pos.1 pos.2 = true) :
    canStand g (tryMove g pos nx ny).1 (tryMove g pos nx ny).2 = true := by
  simp only [tryMove]
  by_cases h1 : canStand g nx pos.2 = true
  · rw [if_pos h1]
    by_cases h2 : canStand g nx ny = true
    · rw [if_pos h2]
      exact h2
    · rw [if_neg h2]
      exact h1
  · rw [if_neg h1]
    by_cases h2 : canStand g pos.1 ny = true
    · rw [if_pos h2]
      exact h2
    · rw [if_neg h2]
      exact h

theorem tryMove_preserves_canStand_witness :
    canStand oneFloorGrid (3 / 2) (3 / 2) = true ∧
      canStand oneFloorGrid (tryMove oneFloorGrid (3 / 2, 3 / 2) (9 / 5) (3 / 2)).1
        (tryMove oneFloorGrid (3 / 2, 3 / 2) (9 / 5) (3 / 2)).2 = true := by
  have hstand : canStand oneFloorGrid (3 / 2) (3 / 2) = true := by
    norm_num [canStand, isWall, oneFloorGrid, W32]
  exact ⟨hstand, tryMove_preserves_canStand oneFloorGrid (3 / 2, 3 / 2) (9 / 5) (3 / 2) hstand⟩

/-- C9: any coordinate pair whose floored cell lies outside the grid bounds is
reported as wall by `isWall`, with no out-of-bounds array access — the bounds
tests return early, and in particular every query against the pre-generation
empty grid answers wall. -/
theorem isWall_oob :
    (∀ (g : MGrid) (x y : ℚ), (⌊y⌋ < 0 ∨ (g.h : Int) ≤ ⌊y⌋ ∨ ⌊x⌋ < 0 ∨ (g.w : Int) ≤ ⌊x⌋) →
      isWall g x y = true) ∧
    (∀ x y : ℚ, isWall emptyGrid x y = true) := by
  constructor
  · intro g x y h
    simp only [isWall]
    rcases h with h | h | h | h
    · rw [if_pos (Or.inl h)]
    · rw [if_pos (Or.inr h)]
    · by_cases hy : ⌊y⌋ < 0 ∨ (g.h : Int) ≤ ⌊y⌋
      · rw [if_pos hy]
      · rw [if_neg hy, if_pos (Or.inl h)]
    · by_cases hy : ⌊y⌋ < 0 ∨ (g.h : Int) ≤ ⌊y⌋
      · rw [if_pos hy]
      · rw [if_neg hy, if_pos (Or.inr h)]
  · intro x y
    simp only [isWall, emptyGrid]
    rw [if_pos]
    omega

theorem isWall_oob_witness :
    (⌊(7 : ℚ)⌋ < 0 ∨ ((mkGrid 5 5).h : Int) ≤ ⌊(7 : ℚ)⌋ ∨ ⌊(2 : ℚ)⌋ < 0 ∨
      ((mkGrid 5 5).w : Int) ≤ ⌊(2 : ℚ)⌋) ∧ isWall (mkGrid 5 5) 2 7 = true :=
  ⟨by norm_num [mkGrid], isWall_oob.1 (mkGrid 5 5) 2 7 (by norm_num [mkGrid])⟩

/-- The two enemy AI modes, the JS strings `wander` and `chase`
(`runtime.js` line 121). -/
inductive EnemyMode where
  | wander
  | chase
deriving DecidableEq

/-- The mutable `Game` session state the verified operations touch
(`runtime.js` constructor, lines 101-126): run/pause flags, grid, player pose,
key counter and remaining key cells, exit cell (`null` before `startNew`),
enemy pose and AI state, and the published UI texts (`ui.status`, `ui.title`)
plus the end-screen overlay flag. -/
structure Session where
  running : Bool
  paused : Bool
  grid : MGrid
  playerX : ℚ
  playerY : ℚ
  playerA : ℚ
  keys : Nat
  keyPos : List (Nat × Nat)
  exitPos : Option (Nat × Nat)
  enemyX : ℚ
  enemyY : ℚ
  enemyMode : EnemyMode
  enemyLastSeen : ℚ
  status : String
  title : String
  overlayShown : Bool

/-- Look input `Game.addLook(dx)` (`runtime.js` lines 140-143): ignored unless the game
is running and unpaused, else the facing angle advances by `dx * 0.0045`
(exactly `9/2000`). -/
def addLook (s : Session) (dx : ℚ) : Session :=
  if !s.running || s.paused then s
  else { s with playerA := s.playerA + dx * (9 / 2000) }

/-- C10: whenever the session is not running or is paused, `addLook` returns
the session completely unchanged — the facing angle (and every other field) is
untouched, so look input is ignored outside active play. -/
theorem addLook_inactive_noop (s : Session) (dx : ℚ)
    (h : s.running = false ∨ s.paused = true) : addLook s dx = s := by
  rcases h with h | h <;> simp [addLook, h]

/-- The idle session a fresh `Game` is in before `startNew` (running and
paused both false, empty grid). -/
def idleSession : Session :=
  { running := false, paused := false, grid := emptyGrid, playerX := 3 / 2, playerY := 3 / 2,
    playerA := 0, keys := 0, keyPos := [], exitPos := none, enemyX := 5 / 2, enemyY := 5 / 2,
    enemyMode := .wander, enemyLastSeen := 0, status := "", title := "", overlayShown := false }

theorem addLook_inactive_noop_witness :
    (idleSession.running = false ∨ idleSession.paused = true) ∧
      addLook idleSession 5 = idleSession :=
  ⟨Or.inl rfl, addLook_inactive_noop idleSession 5 (Or.inl rfl)⟩

/-- Helper for `Math.ceil(d / 0.15)` with `d = √d2` (`runtime.js` line 281):
the smallest `n` with `n * 0.15 ≥ d`, equivalently the first `n` with
`d2 ≤ (n * 3/20)^2`, found by counting up.  The fuel 100 exceeds the largest
value 80 possible under the guard `d ≤ 12`, so the fallback is never reached
in `canSeePlayer`. -/
def ceilStepAux (d2 : ℚ) : Nat → Nat → Nat
  | n, 0 => n
  | n, fuel + 1 => if d2 ≤ ((n : ℚ) * (3 / 20)) ^ 2 then n else ceilStepAux d2 (n + 1) fuel

/-- Step count `Math.ceil(√d2 / 0.15)` for `0 ≤ d2 ≤ 144`. -/
def ceilStep (d2 : ℚ) : Nat := ceilStepAux d2 0 100

/-- Sight check `Game.canSeePlayer(maxDist = 12)` (`runtime.js` lines 274-289): fail when
the player is beyond distance 12 (compared via squares), otherwise sample the
enemy-to-player segment at `i/steps` for `i = 1 .. steps-1` and fail if any
sample lands in a wall cell. -/
def canSeePlayer (s : Session) : Bool :=
  let dx := s.playerX - s.enemyX
  let dy := s.playerY - s.enemyY
  let d2 := dx ^ 2 + dy ^ 2
  if 144 < d2 then false
  else
    let steps := ceilStep d2
    ((List.range steps).drop 1).all (fun i =>
      !isWall s.grid (s.enemyX + dx * ((i : ℚ) / (steps : ℚ)))
        (s.enemyY + dy * ((i : ℚ) / (steps : ℚ))))

/-- The state-transition portion of `Game.stepEnemy` (`runtime.js`
lines 291-303): on sight, enter `chase`, record the sighting time and publish
`RUN!`; with sight lost, leave `chase` for `wander` only when strictly more
than 1.8 s (`9/5`) have elapsed since the last sighting, publishing the
objective text.  The remainder of `stepEnemy` (lines 305-332) only rotates and
moves the enemy and checks the catch condition; it never writes the mode, the
sighting time, or these statuses. -/
def stepEnemyState (s : Session) (now : ℚ) : Session :=
  if canSeePlayer s then
    { s with enemyMode := .chase, enemyLastSeen := now, status := "RUN!" }
  else if s.enemyMode = EnemyMode.chase ∧ 9 / 5 < now - s.enemyLastSeen then
    { s with enemyMode := .wander,
             status := if 3 ≤ s.keys then "Go to EXIT" else "Find keys" }
  else s

/-- A session in `chase` whose player stands 19 tiles away (far beyond the
detection distance 12, so line of sight is lost) with the last sighting at
time 0. -/
def chaseFarSession : Session :=
  { running := true, paused := false, grid := mkGrid 5 5, playerX := 41 / 2, playerY := 3 / 2,
    playerA := 0, keys := 0, keyPos := [], exitPos := none, enemyX := 3 / 2, enemyY := 3 / 2,
    enemyMode := .chase, enemyLastSeen := 0, status := "RUN!", title := "",
    overlayShown := false }

/-- C7 counterexample: the claim lets the enemy revert to `wander` when "at
least 1.8 seconds" have elapsed, but the code requires strictly more than 1.8
(`now - lastSeen > 1.8`, `runtime.js` line 299): in `chaseFarSession` the
sightline is lost and exactly 1.8 s have elapsed at `now = 9/5`, yet the
update keeps the enemy in `chase`. -/
theorem stepEnemy_cooldown_boundary_counterexample :
    canSeePlayer chaseFarSession = false ∧
    chaseFarSession.enemyMode = EnemyMode.chase ∧
    (9 / 5 : ℚ) - chaseFarSession.enemyLastSeen = 9 / 5 ∧
    (stepEnemyState chaseFarSession (9 / 5)).enemyMode = EnemyMode.chase := by
  have hsee : canSeePlayer chaseFarSession = false := by
    norm_num [canSeePlayer, chaseFarSession]
  refine ⟨hsee, rfl, by norm_num [chaseFarSession], ?_⟩
  rw [stepEnemyState, if_neg (by simp [hsee]), if_neg (by norm_num [chaseFarSession])]
  rfl

/-- C7 amended: with the cooldown condition strengthened from "at least" to
the code's strict "more than 1.8 seconds": a successful line-of-sight check
makes a single update enter `chase` and record the sighting time, and when the
enemy is in `chase`, sight is lost, and strictly more than 1.8 s have elapsed
since the last sighting, the next update reverts to `wander`. -/
theorem stepEnemy_transitions (s : Session) (now : ℚ) :
    (canSeePlayer s = true →
      (stepEnemyState s now).enemyMode = EnemyMode.chase ∧
        (stepEnemyState s now).enemyLastSeen = now) ∧
    (canSeePlayer s = false → s.enemyMode = EnemyMode.chase →
      9 / 5 < now - s.enemyLastSeen →
      (stepEnemyState s now).enemyMode = EnemyMode.wander) := by
  constructor
  · intro hsee
    simp [stepEnemyState, hsee]
  · intro hsee hmode helapsed
    simp [stepEnemyState, hsee, hmode, helapsed]

/-- A session whose enemy stands on the player's very cell centre: the
line-of-sight check trivially succeeds (zero distance, no samples). -/
def contactSession : Session :=
  { running := true, paused := false, grid := mkGrid 5 5, playerX := 3 / 2, playerY := 3 / 2,
    playerA := 0, keys := 0, keyPos := [], exitPos := none, enemyX := 3 / 2, enemyY := 3 / 2,
    enemyMode := .wander, enemyLastSeen := 0, status := "Find keys", title := "",
    overlayShown := false }

theorem stepEnemy_transitions_witness :
    (canSeePlayer contactSession = true ∧
      (stepEnemyState contactSession 2).enemyMode = EnemyMode.chase ∧
      (stepEnemyState contactSession 2).enemyLastSeen = 2) ∧
    (canSeePlayer chaseFarSession = false ∧ chaseFarSession.enemyMode = EnemyMode.chase ∧
      (9 / 5 : ℚ) < 2 - chaseFarSession.enemyLastSeen ∧
      (stepEnemyState chaseFarSession 2).enemyMode = EnemyMode.wander) := by
  have hsee1 : canSeePlayer contactSession = true := by
    norm_num [canSeePlayer, contactSession, ceilStep, ceilStepAux]
  have hsee2 : canSeePlayer chaseFarSession = false := by
    norm_num [canSeePlayer, chaseFarSession]
  have helapsed : (9 / 5 : ℚ) < 2 - chaseFarSession.enemyLastSeen := by
    norm_num [chaseFarSession]
  refine ⟨⟨hsee1, ?_⟩, hsee2, rfl, helapsed, ?_⟩
  · exact (stepEnemy_transitions contactSession 2).1 hsee1
  · exact (stepEnemy_transitions chaseFarSession 2).2 hsee2 rfl helapsed

/-- The key-collection scan of `Game.pickup` (`runtime.js` lines 256-265):
walk `keyPos` in order and splice out the first key whose cell equals the
player's cell (`some` of the remaining list), or `none` when no key matches. -/
def collectKeyAt (px py : Int) : List (Nat × Nat) → Option (List (Nat × Nat))
  | [] => none
  | k :: rest =>
    if (k.1 : Int) = px ∧ (k.2 : Int) = py then some rest
    else
      match collectKeyAt px py rest with
      | some rest' => some (k :: rest')
      | none => none

/-- Win transition `Game.win()` (`runtime.js` lines 216-222): stop the session, publish the
`Clear!` title and show the end-screen overlay (the seed line and restart
button it also writes are presentation details outside the modelled state). -/
def winS (s : Session) : Session :=
  { s with running := false, title := "Clear!", overlayShown := true }

/-- Pickup resolution `Game.pickup()` (`runtime.js` lines 251-272): collect at most one key on
the player's cell (incrementing the counter and publishing the objective
text), then, if an exit exists and the player stands on it, either win (key
count now at least 3) or publish the unmet-requirement status `Need 3 keys`. -/
def pickup (s : Session) : Session :=
  let px := ⌊s.playerX⌋
  let py := ⌊s.playerY⌋
  let s1 :=
    match collectKeyAt px py s.keyPos with
    | some kp =>
      { s with keyPos := kp, keys := s.keys + 1,
               status := if 3 ≤ s.keys + 1 then "Go to EXIT" else "Find keys" }
    | none => s
  match s1.exitPos with
  | some e =>
    if (e.1 : Int) = px ∧ (e.2 : Int) = py then
      if 3 ≤ s1.keys then winS s1 else { s1 with status := "Need 3 keys" }
    else s1
  | none => s1

/-- A running session with 2 collected keys whose last uncollected key lies on
the exit cell, with the player standing there. -/
def keyOnExitSession : Session :=
  { running := true, paused := false, grid := mkGrid 5 5, playerX := 3 / 2, playerY := 3 / 2,
    playerA := 0, keys := 2, keyPos := [(1, 1)], exitPos := some (1, 1), enemyX := 7 / 2,
    enemyY := 7 / 2, enemyMode := .wander, enemyLastSeen := 0, status := "Find keys",
    title := "", overlayShown := false }

/-- C8 counterexample: the claim promises that a running session at the exit
cell with key count below 3 stays running with only the `Need 3 keys` status,
for every running session.  In `keyOnExitSession` the key count is 2 and the
player's cell equals the exit cell, yet `pickup` ends the session as won: a
key sits on that same cell, so the key phase raises the count to 3 before the
exit comparison runs (in sessions produced by `startNew` this cannot happen —
the exit never shares a cell with a key). -/
theorem pickup_key_on_exit_counterexample :
    keyOnExitSession.running = true ∧ keyOnExitSession.keys < 3 ∧
    keyOnExitSession.exitPos = some (1, 1) ∧
    ⌊keyOnExitSession.playerX⌋ = 1 ∧ ⌊keyOnExitSession.playerY⌋ = 1 ∧
    (pickup keyOnExitSession).running = false := by
  refine ⟨rfl, by norm_num [keyOnExitSession], rfl, by norm_num [keyOnExitSession],
    by norm_num [keyOnExitSession], ?_⟩
  norm_num [pickup, keyOnExitSession, collectKeyAt, winS]

/-- C8 amended: for every running session whose player cell equals the exit
cell, (1) if the key count is at least 3 then `pickup` ends the session as won
(running cleared, `Clear!` title, overlay shown) — this part needs no further
proviso, since the key phase can only raise the count; and (2) if the key
count is below 3 *and the player's cell holds no remaining key* (which
`startNew` placement guarantees, the exit cell never coinciding with a key
cell), the session stays running and only the `Need 3 keys` status is
published. -/
theorem pickup_win_spec (s : Session) (e : Nat × Nat)
    (hrun : s.running = true) (hexit : s.exitPos = some e)
    (hex : (e.1 : Int) = ⌊s.playerX⌋ ∧ (e.2 : Int) = ⌊s.playerY⌋) :
    (3 ≤ s.keys → (pickup s).running = false ∧ (pickup s).title = "Clear!" ∧
      (pickup s).overlayShown = true) ∧
    (s.keys < 3 → collectKeyAt ⌊s.playerX⌋ ⌊s.playerY⌋ s.keyPos = none →
      (pickup s).running = true ∧ (pickup s).status = "Need 3 keys") := by
  constructor
  · intro hk
    simp only [pickup]
    cases hcol : collectKeyAt ⌊s.playerX⌋ ⌊s.playerY⌋ s.keyPos with
    | some kp =>
      dsimp only
      rw [hexit]
      dsimp only
      rw [if_pos hex, if_pos (by omega : 3 ≤ s.keys + 1)]
      simp [winS]
    | none =>
      dsimp only
      rw [hexit]
      dsimp only
      rw [if_pos hex, if_pos hk]
      simp [winS]
  · intro hk hnone
    simp only [pickup, hnone]
    rw [hexit]
    dsimp only
    rw [if_pos hex, if_neg (by omega : ¬ 3 ≤ s.keys)]
    exact ⟨hrun, rfl⟩

/-- A running session standing on the exit with all 3 keys collected and no
key left anywhere. -/
def atExitSession : Session :=
  { running := true, paused := false, grid := mkGrid 5 5, playerX := 3 / 2, playerY := 3 / 2,
    playerA := 0, keys := 3, keyPos := [], exitPos := some (1, 1), enemyX := 7 / 2,
    enemyY := 7 / 2, enemyMode := .wander, enemyLastSeen := 0, status := "Go to EXIT",
    title := "", overlayShown := false }

/-- The same session with only 1 key collected. -/
def atExitLowKeysSession : Session :=
  { atExitSession with keys := 1, status := "Find keys" }

theorem pickup_win_spec_witness :
    (atExitSession.running = true ∧ atExitSession.exitPos = some (1, 1) ∧
      ((1 : Int) = ⌊atExitSession.playerX⌋ ∧ (1 : Int) = ⌊atExitSession.playerY⌋) ∧
      3 ≤ atExitSession.keys ∧
      (pickup atExitSession).running = false ∧ (pickup atExitSession).title = "Clear!" ∧
      (pickup atExitSession).overlayShown = true) ∧
    (atExitLowKeysSession.keys < 3 ∧
      collectKeyAt ⌊atExitLowKeysSession.playerX⌋ ⌊atExitLowKeysSession.playerY⌋
        atExitLowKeysSession.keyPos = none ∧
      (pickup atExitLowKeysSession).running = true ∧
      (pickup atExitLowKeysSession).status = "Need 3 keys") := by
  have hfl : ((1 : Int) = ⌊atExitSession.playerX⌋ ∧ (1 : Int) = ⌊atExitSession.playerY⌋) := by
    norm_num [atExitSession]
  have hfl2 : ((1 : Int) = ⌊atExitLowKeysSession.playerX⌋ ∧
      (1 : Int) = ⌊atExitLowKeysSession.playerY⌋) := by
    norm_num [atExitLowKeysSession, atExitSession]
  have h1 := (pickup_win_spec atExitSession (1, 1) rfl rfl hfl).1 (by norm_num [atExitSession])
  have h2 := (pickup_win_spec atExitLowKeysSession (1, 1) rfl rfl hfl2).2
    (by norm_num [atExitLowKeysSession, atExitSession]) rfl
  exact ⟨⟨rfl, rfl, hfl, by norm_num [atExitSession], h1⟩,
    by norm_num [atExitLowKeysSession, atExitSession], rfl, h2⟩

/-- Per-step stop test of the DDA loop (`runtime.js` lines 403-404): leaving
the grid counts as a hit, as does reaching a wall cell. -/
def rayStop (g : MGrid) (mx my : Int) : Bool :=
  if my < 0 ∨ (g.h : Int) ≤ my ∨ mx < 0 ∨ (g.w : Int) ≤ mx then true
  else g.cell mx.toNat my.toNat == 1

/-- The state of the DDA loop (`runtime.js` lines 380-405): the two side
distance accumulators, the current cell, the last stepped axis (`side`), the
`hit` flag, and — as a purely observational extension for the specification —
the list of cells the march has visited. -/
structure RayState where
  sideDistX : ℚ
  sideDistY : ℚ
  mapX : Int
  mapY : Int
  side : Nat
  hit : Nat
  visited : List (Int × Int)

/-- The DDA march (`runtime.js` lines 392-405): up to the fuel bound (128 in
`raycast`), advance along the axis with the smaller accumulated side distance,
record the stepped axis, and stop with `hit = 1` at the first out-of-grid or
wall cell. -/
def rayLoop (g : MGrid) (dX dY : ℚ) (sX sY : Int) : Nat → RayState → RayState
  | 0, st => st
  | fuel + 1, st =>
    let st1 :=
      if st.sideDistX < st.sideDistY then
        { st with sideDistX := st.sideDistX + dX, mapX := st.mapX + sX, side := 0 }
      else
        { st with sideDistY := st.sideDistY + dY, mapY := st.mapY + sY, side := 1 }
    let st2 := { st1 with visited := st1.visited ++ [(st1.mapX, st1.mapY)] }
    if rayStop g st2.mapX st2.mapY then { st2 with hit := 1 }
    else rayLoop g dX dY sX sY fuel st2

/-- The outcome of `Game.raycast` (`runtime.js` line 412).  The JS object
carries `dist`, `side`, `mapX`, `mapY`; the model additionally exposes the
loop's internal `hit` flag and the visited-cell trace so the claims can speak
about them. -/
structure RayOut where
  dist : ℚ
  side : Nat
  mapX : Int
  mapY : Int
  hit : Nat
  visited : List (Int × Int)

/-- Raycast `Game.raycast(angle)` (`runtime.js` lines 367-413) over exact rationals,
taking the direction components `dx = cos angle`, `dy = sin angle` as inputs.
A zero component is replaced by `1e-9` before inversion (`dx || 1e-9`); the
perpendicular distance undoes the last accumulation on the stepped axis. -/
def raycastQ (g : MGrid) (px py dx dy : ℚ) : RayOut :=
  let mapX : Int := ⌊px⌋
  let mapY : Int := ⌊py⌋
  let deltaDistX : ℚ := |1 / (if dx = 0 then 1 / 1000000000 else dx)|
  let deltaDistY : ℚ := |1 / (if dy = 0 then 1 / 1000000000 else dy)|
  let stepX : Int := if dx < 0 then -1 else 1
  let sideDistX : ℚ := if dx < 0 then (px - mapX) * deltaDistX else (mapX + 1 - px) * deltaDistX
  let stepY : Int := if dy < 0 then -1 else 1
  let sideDistY : ℚ := if dy < 0 then (py - mapY) * deltaDistY else (mapY + 1 - py) * deltaDistY
  let fin := rayLoop g deltaDistX deltaDistY stepX stepY 128
    ⟨sideDistX, sideDistY, mapX, mapY, 0, 0, []⟩
  let perpWallDist : ℚ :=
    if fin.side = 0 then fin.sideDistX - deltaDistX else fin.sideDistY - deltaDistY
  ⟨perpWallDist, fin.side, fin.mapX, fin.mapY, fin.hit, fin.visited⟩

/-- What claim C6 asserts of every ray: at most 128 cells are stepped; every
visited cell before the stopping one is inside the grid and not a wall (the
march stops at the first wall or out-of-grid cell); when `hit` is set the last
visited cell is the one that stopped the march; and when `hit` is clear the
march exhausted all 128 steps without meeting a wall. -/
def RaySpec (g : MGrid) (r : RayOut) : Prop :=
  r.visited.length ≤ 128 ∧
  (∀ c ∈ r.visited.dropLast, rayStop g c.1 c.2 = false) ∧
  (r.hit = 1 → ∃ c, r.visited.getLast? = some c ∧ rayStop g c.1 c.2 = true) ∧
  (r.hit = 0 → r.visited.length = 128 ∧ ∀ c ∈ r.visited, rayStop g c.1 c.2 = false)

/-- Loop invariant giving `RaySpec`: starting from a state with clear `hit`
flag and only non-stopping visited cells, the final state visits at most
(and, when no stop occurs, exactly) `fuel` further cells. -/
lemma rayLoop_post (g : MGrid) (dX dY : ℚ) (sX sY : Int) : ∀ (fuel : Nat) (st : RayState),
    st.hit = 0 → (∀ c ∈ st.visited, rayStop g c.1 c.2 = false) →
    (rayLoop g dX dY sX sY fuel st).visited.length ≤ st.visited.length + fuel ∧
    (∀ c ∈ (rayLoop g dX dY sX sY fuel st).visited.dropLast, rayStop g c.1 c.2 = false) ∧
    ((rayLoop g dX dY sX sY fuel st).hit = 1 →
      ∃ c, (rayLoop g dX dY sX sY fuel st).visited.getLast? = some c ∧
        rayStop g c.1 c.2 = true) ∧
    ((rayLoop g dX dY sX sY fuel st).hit = 0 →
      (rayLoop g dX dY sX sY fuel st).visited.length = st.visited.length + fuel ∧
      ∀ c ∈ (rayLoop g dX dY sX sY fuel st).visited, rayStop g c.1 c.2 = false) := by
  intro fuel
  induction fuel with
  | zero =>
    intro st hhit hvis
    refine ⟨le_refl _, ?_, ?_, ?_⟩
    · intro c hc
      exact hvis c ((List.dropLast_sublist _).subset hc)
    · intro h1
      rw [rayLoop] at h1
      rw [hhit] at h1
      exact absurd h1 (by norm_num)
    · intro _
      exact ⟨rfl, hvis⟩
  | succ fuel ih =>
    intro st hhit hvis
    rw [rayLoop]
    by_cases hlt : st.sideDistX < st.sideDistY
    · rw [if_pos hlt]
      dsimp only
      by_cases hstop : rayStop g (st.mapX + sX) st.mapY = true
      · rw [if_pos hstop]
        refine ⟨?_, ?_, ?_, ?_⟩
        · simp only [List.length_append, List.length_singleton]
          omega
        · intro c hc
          rw [List.dropLast_concat] at hc
          exact hvis c hc
        · intro _
          exact ⟨(st.mapX + sX, st.mapY), by rw [List.getLast?_concat], hstop⟩
        · intro h0
          exact absurd h0 (by norm_num)
      · rw [if_neg hstop]
        have hstop' : rayStop g (st.mapX + sX) st.mapY = false := by
          simp only [Bool.not_eq_true] at hstop
          exact hstop
        have hres := ih (RayState.mk (st.sideDistX + dX) st.sideDistY (st.mapX + sX) st.mapY
            0 st.hit (st.visited ++ [(st.mapX + sX, st.mapY)])) hhit ?hvis2
        case hvis2 =>
          intro c hc
          rcases List.mem_append.1 hc with hc1 | hc2
          · exact hvis c hc1
          · rw [List.mem_singleton.1 hc2]
            exact hstop'
        refine ⟨?_, hres.2.1, hres.2.2.1, ?_⟩
        · refine le_trans hres.1 ?_
          simp only [List.length_append, List.length_singleton]
          omega
        · intro h0
          refine ⟨?_, (hres.2.2.2 h0).2⟩
          have := (hres.2.2.2 h0).1
          simp only [List.length_append, List.length_singleton] at this
          omega
    · rw [if_neg hlt]
      dsimp only
      by_cases hstop : rayStop g st.mapX (st.mapY + sY) = true
      · rw [if_pos hstop]
        refine ⟨?_, ?_, ?_, ?_⟩
        · simp only [List.length_append, List.length_singleton]
          omega
        · intro c hc
          rw [List.dropLast_concat] at hc
          exact hvis c hc
        · intro _
          exact ⟨(st.mapX, st.mapY + sY), by rw [List.getLast?_concat], hstop⟩
        · intro h0
          exact absurd h0 (by norm_num)
      · rw [if_neg hstop]
        have hstop' : rayStop g st.mapX (st.mapY + sY) = false := by
          simp only [Bool.not_eq_true] at hstop
          exact hstop
        have hres := ih (RayState.mk st.sideDistX (st.sideDistY + dY) st.mapX (st.mapY + sY)
            1 st.hit (st.visited ++ [(st.mapX, st.mapY + sY)])) hhit ?hvis3
        case hvis3 =>
          intro c hc
          rcases List.mem_append.1 hc with hc1 | hc2
          · exact hvis c hc1
          · rw [List.mem_singleton.1 hc2]
            exact hstop'
        refine ⟨?_, hres.2.1, hres.2.2.1, ?_⟩
        · refine le_trans hres.1 ?_
          simp only [List.length_append, List.length_singleton]
          omega
        · intro h0
          refine ⟨?_, (hres.2.2.2 h0).2⟩
          have := (hres.2.2.2 h0).1
          simp only [List.length_append, List.length_singleton] at this
          omega

lemma raycastQ_spec (g : MGrid) (px py dx dy : ℚ) : RaySpec g (raycastQ g px py dx dy) := by
  have h := rayLoop_post g (|1 / (if dx = 0 then 1 / 1000000000 else dx)|)
    (|1 / (if dy = 0 then 1 / 1000000000 else dy)|)
    (if dx < 0 then -1 else 1) (if dy < 0 then -1 else 1) 128
    ⟨(if dx < 0 then (px - (⌊px⌋ : ℚ)) * |1 / (if dx = 0 then 1 / 1000000000 else dx)|
        else ((⌊px⌋ : ℚ) + 1 - px) * |1 / (if dx = 0 then 1 / 1000000000 else dx)|),
      (if dy < 0 then (py - (⌊py⌋ : ℚ)) * |1 / (if dy = 0 then 1 / 1000000000 else dy)|
        else ((⌊py⌋ : ℚ) + 1 - py) * |1 / (if dy = 0 then 1 / 1000000000 else dy)|),
      ⌊px⌋, ⌊py⌋, 0, 0, []⟩ rfl (fun c hc => absurd hc (List.not_mem_nil c))
  simp only [List.length_nil, Nat.zero_add] at h
  simp only [raycastQ, RaySpec]
  exact h

/-- C6: every ray march performs at most 128 DDA steps and stops at the first
wall or out-of-grid cell it reaches (every earlier visited cell is in-grid
floor; with the internal `hit` flag clear the march exhausted all 128 steps
without finding a wall and still returns a distance).  In particular, the ray
fired from `(1.5, 1.5)` straight along `+x` (`angle = 0`) into the known wall
at `x = 2` of `oneFloorGrid` stops at cell `(2, 1)` with the `hit` flag set
and returns the finite perpendicular distance `1/2`, far below the 128-step
bound. -/
theorem raycast_spec :
    (∀ (g : MGrid) (px py dx dy : ℚ), RaySpec g (raycastQ g px py dx dy)) ∧
    raycastQ oneFloorGrid (3 / 2) (3 / 2) 1 0 = ⟨1 / 2, 0, 2, 1, 1, [(2, 1)]⟩ ∧
    (raycastQ oneFloorGrid (3 / 2) (3 / 2) 1 0).dist < 128 := by
  have hconc : raycastQ oneFloorGrid (3 / 2) (3 / 2) 1 0 = ⟨1 / 2, 0, 2, 1, 1, [(2, 1)]⟩ := by
    rw [raycastQ]
    norm_num
    rw [show (128 : Nat) = 127 + 1 from rfl, rayLoop]
    norm_num [rayStop, oneFloorGrid]
    simp
    norm_num
  exact ⟨raycastQ_spec, hconc, by rw [hconc]; norm_num⟩
